import Mathlib

/-!
Verification development for the fiboa conversion engine and the
fieldscapes dataset specifications (kerner-lab/cli).

The repository ships the per-dataset specification files
(src/fiboa_cli/datasets/fieldscapes_*.py); the shared conversion engine
(fiboa_cli.convert_utils.convert) is called by every dataset file but its
source is not part of the repository snapshot.  The engine is therefore
modelled from the specification document (sections 3, 4.3 and 4.4); every
definition taken from the specification rather than from repository source
says so in its doc comment.  The dataset-level data (column maps, filters,
column migrations, global migration functions) is translated directly from
the dataset files.
-/

namespace Fiboa

/-- A cell value of the working table.  Strings, integers, rationals
(pandas floats are modelled as exact rationals), booleans, a null marker
(pandas NaN/None), and geometry values carried as abstract tokens. -/
inductive Value where
  | null
  | str (s : String)
  | int (n : Int)
  | num (q : Rat)
  | bool (b : Bool)
  | geom (g : Int)
  deriving DecidableEq

/-- Modelled from the spec: the Working Table, "a mutable in-memory tabular
structure with named, typed columns" (section 3).  Column-oriented, as in
pandas: a list of named columns, each holding the column values in row
order. -/
structure Table where
  cols : List (String × List Value)
  deriving DecidableEq

/-- Row count of the working table: the length of its first column
(pandas data frames have a uniform row count across columns). -/
def Table.nRows (t : Table) : Nat :=
  match t.cols with
  | [] => 0
  | c :: _ => c.2.length

/-- The column names, in order. -/
def Table.colNames (t : Table) : List String :=
  t.cols.map (fun c => c.1)

/-- Look up a column by name (first match, as pandas label lookup). -/
def Table.getCol (t : Table) (k : String) : Option (List Value) :=
  (t.cols.find? (fun c => c.1 == k)).map (fun c => c.2)

/-- Column lookup defaulting to the empty column. -/
def Table.getColD (t : Table) (k : String) : List Value :=
  (t.getCol k).getD []

/-- Set a column: replace it in place when the name exists, append it
otherwise (pandas column assignment). -/
def Table.setCol (t : Table) (k : String) (vs : List Value) : Table :=
  if t.colNames.contains k then
    ⟨t.cols.map (fun c => if c.1 == k then (k, vs) else c)⟩
  else
    ⟨t.cols ++ [(k, vs)]⟩

/-- Well-formedness: every column has the table's row count. -/
def Table.wellFormed (t : Table) : Prop :=
  ∀ c ∈ t.cols, c.2.length = t.nRows

instance (t : Table) : Decidable t.wellFormed :=
  inferInstanceAs (Decidable (∀ c ∈ t.cols, c.2.length = t.nRows))

/-- A row-filter predicate: from the values of one column it produces a
boolean mask and a polarity flag (section 4.3 stage 2; in the dataset files
"a Series or a Tuple with a Series and True to inverse the mask"). -/
abbrev FilterFn := List Value → (List Bool × Bool)

/-- A per-column value transform, a pure function over the whole column
(section 4.3 stage 4; func(column: pd.Series) -> pd.Series). -/
abbrev MigrationFn := List Value → List Value

/-- Modelled from the spec: the Dataset Specification fields that drive the
transform pipeline (section 3): optional whole-table migration function,
per-column row-filter predicates, constant columns, per-column
value-transform functions, and the ordered column rename map whose values
are one or more target names. -/
structure ConversionSpec where
  migration : Option (Table → Table)
  column_filters : List (String × FilterFn)
  column_additions : List (String × Value)
  column_migrations : List (String × MigrationFn)
  columns : List (String × List String)

/-- Keep the values whose mask entry is true, preserving order. -/
def maskKeep (vs : List Value) (mask : List Bool) : List Value :=
  ((vs.zip mask).filter (fun p => p.2)).map (fun p => p.1)

/-- Apply one boolean row mask to every column of the table. -/
def Table.filterRows (t : Table) (mask : List Bool) : Table :=
  ⟨t.cols.map (fun c => (c.1, maskKeep c.2 mask))⟩

/-- Modelled from the spec: stage 1, the optional global migration,
"optional function: Working Table → Working Table" (section 4.3). -/
def applyGlobalMigration (m : Option (Table → Table)) (t : Table) : Table :=
  match m with
  | none => t
  | some f => f t

/-- One row-filter application: evaluate the predicate on the configured
column, invert the mask when the polarity flag is set, and keep the
mask-true rows.  A filter keyed on an absent column has no configured
effect. -/
def filterStep (acc : Table) (f : String × FilterFn) : Table :=
  match acc.getCol f.1 with
  | none => acc
  | some vs =>
    let r := f.2 vs
    acc.filterRows (if r.2 then r.1.map (fun b => !b) else r.1)

/-- Modelled from the spec: stage 2, row filtering.  "For each configured
column, evaluate a predicate producing a boolean mask and a polarity flag;
if polarity is set, the mask is inverted before being applied.  Multiple
filters compose by conjunction" (section 4.3). -/
def applyFilters (fs : List (String × FilterFn)) (t : Table) : Table :=
  fs.foldl filterStep t

/-- One constant-column injection: a column holding the supplied value for
every row. -/
def additionStep (acc : Table) (a : String × Value) : Table :=
  acc.setCol a.1 (List.replicate acc.nRows a.2)

/-- Modelled from the spec: stage 3, constant-column injection.  "For each
configured name, add a column filled with one supplied value for every
row" (section 4.3). -/
def applyAdditions (adds : List (String × Value)) (t : Table) : Table :=
  adds.foldl additionStep t

/-- Conform a column produced by a migration function to the table's row
count, as pandas index alignment does on column assignment: surplus values
are dropped, missing positions are null. -/
def conformLength (n : Nat) (vs : List Value) : List Value :=
  vs.take n ++ List.replicate (n - vs.length) Value.null

/-- One column migration: replace the configured column by the function's
image of it; a migration keyed on an absent column has no configured
effect. -/
def migrationStep (acc : Table) (m : String × MigrationFn) : Table :=
  match acc.getCol m.1 with
  | none => acc
  | some vs => acc.setCol m.1 (conformLength acc.nRows (m.2 vs))

/-- Modelled from the spec: stage 4, column migrations.  "For each
configured source column, replace its values by applying a pure function
over the whole column" (section 4.3). -/
def applyColumnMigrations (ms : List (String × MigrationFn)) (t : Table) : Table :=
  ms.foldl migrationStep t

/-- The rename map's target set: every target name it mentions. -/
def targetSet (columns : List (String × List String)) : List String :=
  columns.flatMap (fun c => c.2)

/-- One duplication: when a rename entry lists at least two targets and its
source column is present, copy the column under each target name. -/
def duplicationStep (acc : Table) (c : String × List String) : Table :=
  if 2 ≤ c.2.length then
    match acc.getCol c.1 with
    | none => acc
    | some vs => c.2.foldl (fun acc2 tgt => acc2.setCol tgt vs) acc
  else acc

/-- Modelled from the spec: stage 5, column duplication.  "If the rename
map designates multiple target names for one source column, duplicate the
column under each target name before renaming" (section 4.3). -/
def applyDuplication (columns : List (String × List String)) (t : Table) : Table :=
  columns.foldl duplicationStep t

/-- Modelled from the spec: stage 6, rename.  "Apply the source-to-target
name map" (section 4.3); entries with a single target rename the column in
place, multi-target entries were handled by duplication. -/
def applyRename (columns : List (String × List String)) (t : Table) : Table :=
  ⟨t.cols.map
    (fun c =>
      match (columns.find? (fun e => e.1 == c.1)).map (fun e => e.2) with
      | some [tgt] => (tgt, c.2)
      | _ => c)⟩

/-- Modelled from the spec: stage 7, prune.  "Drop any remaining column not
present in the rename map's target set" (section 4.3). -/
def applyPrune (columns : List (String × List String)) (t : Table) : Table :=
  ⟨t.cols.filter (fun c => (targetSet columns).contains c.1)⟩

/-- Modelled from the spec: the transform pipeline, the "deterministic,
total ordering of seven stages, always applied in this sequence regardless
of specification content" (section 4.3). -/
def runPipeline (spec : ConversionSpec) (t : Table) : Table :=
  applyPrune spec.columns
    (applyRename spec.columns
      (applyDuplication spec.columns
        (applyColumnMigrations spec.column_migrations
          (applyAdditions spec.column_additions
            (applyFilters spec.column_filters
              (applyGlobalMigration spec.migration t))))))

/-! ## Type coercion and validation (sections 3, 4.4) -/

/-- Modelled from the spec: validation errors reported by the Type Coercion
and Validator component (sections 4.4, 6): a required column that still
holds nulls, an enum-constrained column with a value outside the declared
set, and a working-table column absent from the Resolved Schema
(section 3: "every column present in the Working Table after the Transform
Pipeline must appear in the Resolved Schema, or the run fails"). -/
inductive VError where
  | missingRequiredField (col : String) (count : Nat)
  | invalidEnumValue (col : String) (count : Nat)
  | unknownColumn (col : String)
  deriving DecidableEq

/-- Modelled from the spec: one entry of the Resolved Schema — required-ness
and an optional enum-membership constraint (section 3). -/
structure ColSchema where
  required : Bool
  enum : Option (List Value)
  deriving DecidableEq

/-- Modelled from the spec: the Resolved Schema, a "mapping from target
column name to {type, nullability, constraints}" (section 3). -/
abbrev ResolvedSchema := List (String × ColSchema)

/-- The number of null values in a column. -/
def nullCount (vs : List Value) : Nat :=
  (vs.filter (fun v => v == Value.null)).length

/-- The number of non-null values lying outside a declared enum set. -/
def enumViolations (allowed : List Value) (vs : List Value) : Nat :=
  (vs.filter (fun v => !(v == Value.null) && !(allowed.contains v))).length

/-- Modelled from the spec: constraint check for one column (section 4.4):
"Required columns: fails with MissingRequiredField if null values remain.
Enum-constrained columns: fails with InvalidEnumValue if any non-null value
lies outside the declared set", each reported with the offending row
count. -/
def checkColumn (name : String) (cs : ColSchema) (vs : List Value) : Option VError :=
  if cs.required ∧ 0 < nullCount vs then
    some (.missingRequiredField name (nullCount vs))
  else
    match cs.enum with
    | some allowed =>
      if 0 < enumViolations allowed vs then
        some (.invalidEnumValue name (enumViolations allowed vs))
      else none
    | none => none

/-- The validation outcome for one working-table column: unknown when the
Resolved Schema has no entry for it, otherwise its constraint check. -/
def columnError (sch : ResolvedSchema) (c : String × List Value) : Option VError :=
  match (sch.find? (fun e => e.1 == c.1)).map (fun e => e.2) with
  | none => some (.unknownColumn c.1)
  | some cs => checkColumn c.1 cs c.2

/-- Modelled from the spec: fail-fast validation of the transformed table
(section 4.4): "the first violated column is reported with column name,
violation kind, and offending row count"; on failure no output table is
produced. -/
def validateTable (sch : ResolvedSchema) (t : Table) : Except VError Table :=
  match t.cols.findSome? (columnError sch) with
  | some e => .error e
  | none => .ok t

/-- Modelled from the spec: one conversion run after source loading —
transform pipeline, then validation; the Except result is the "typed error
propagated to the external caller" on failure (section 7). -/
def runConversion (spec : ConversionSpec) (sch : ResolvedSchema) (t : Table) :
    Except VError Table :=
  validateTable sch (runPipeline spec t)

/-! ## Dataset-level data, translated from the dataset files -/

/-- Membership mask of a column against an allow-list:
pandas Series.isin. -/
def isin (allowed : List Value) (vs : List Value) : List Bool :=
  vs.map (fun v => allowed.contains v)

/-- Categorical remapping of a column through a mapping table: pandas
Series.map, sending every value absent from the table to null (NaN). -/
def mapSeries (table : List (Value × Value)) (vs : List Value) : List Value :=
  vs.map
    (fun v =>
      match table.find? (fun e => e.1 == v) with
      | some e => e.2
      | none => Value.null)

/-- The mapping table of the Finland MAANKAYTTOLAJI column migration:
{AL: Arable Land, PC: Permanent Grass, PG: Permanent Plant}. -/
def finland_LANDUSE_MAP : List (Value × Value) :=
  [(Value.str "AL", Value.str "Arable Land"),
   (Value.str "PC", Value.str "Permanent Grass"),
   (Value.str "PG", Value.str "Permanent Plant")]

/-- The COLUMN_MIGRATIONS map of fieldscapes_finland_2021.py: the raw land
use codes AL, PC, PG are remapped to their labels. -/
def finland_COLUMN_MIGRATIONS : List (String × MigrationFn) :=
  [("MAANKAYTTOLAJI", mapSeries finland_LANDUSE_MAP)]

/-- The raw MAANKAYTTOLAJI land use codes of the Finland source data, the
keys of the migration mapping table. -/
def finland_raw_codes : List Value :=
  [Value.str "AL", Value.str "PC", Value.str "PG"]

/-- The COLUMN_FILTERS map of fieldscapes_finland_2021.py:
lambda col: (col.isin(["Arable Land"]), True). -/
def finland_COLUMN_FILTERS : List (String × FilterFn) :=
  [("MAANKAYTTOLAJI", fun vs => (isin [Value.str "Arable Land"] vs, true))]

/-- The filter lambda of fieldscapes_romania_2021.py:
lambda col: (col.isin(['arable_crops' 'rice']), True).  The two adjacent
Python string literals concatenate, so the allow-list holds the single
string "arable_cropsrice". -/
def romania_filter_fn : FilterFn :=
  fun vs => (isin [Value.str "arable_cropsrice"] vs, true)

/-- The COLUMN_FILTERS map of fieldscapes_romania_2021.py. -/
def romania_COLUMN_FILTERS : List (String × FilterFn) :=
  [("EC_hcat_n", romania_filter_fn)]

/-- The COLUMNS rename map of fieldscapes_austria_2021.py. -/
def austria_COLUMNS : List (String × List String) :=
  [("FS_KENNUNG", ["id"]),
   ("SL_FLAECHE", ["area"]),
   ("EC_hcat_c", ["crop_id"]),
   ("EC_hcat_n", ["crop_name"]),
   ("geometry", ["geometry"])]

/-- The ADD_COLUMNS map of fieldscapes_austria_2021.py. -/
def austria_ADD_COLUMNS : List (String × Value) :=
  [("determination_datetime", Value.str "2021-01-01T00:00:00Z")]

/-- The required list of the MISSING_SCHEMAS fragment of
fieldscapes_austria_2021.py: crop_id and crop_name are non-nullable. -/
def austria_REQUIRED : List String :=
  ["crop_id", "crop_name"]

/-- The ids 1, 2, ..., n as integer values:
Python range(1, len(gdf) + 1). -/
def rangeIds (n : Nat) : List Value :=
  (List.range n).map (fun i => Value.int (Int.ofNat (i + 1)))

/-- The global migration of fieldscapes_romania_2021.py:
gdf['id'] = range(1, len(gdf) + 1). -/
def romania_migrate (t : Table) : Table :=
  t.setCol "id" (rangeIds t.nRows)

/-- Scale a numeric value by a rational factor (pandas Series * scalar on a
numeric column); non-numeric values give null. -/
def scaleVal (q : Rat) (v : Value) : Value :=
  match v with
  | Value.int n => Value.num (q * (n : Rat))
  | Value.num x => Value.num (q * x)
  | _ => Value.null

/-- GeoPandas to_crs reprojects the geometry column elementwise; the
coordinate mathematics lives in the external GeoPandas collaborator, so it
is a parameter (reproj), applied to every geometry value. -/
def to_crs (reproj : Int → Value → Value) (epsg : Int) (t : Table) : Table :=
  match t.getCol "geometry" with
  | none => t
  | some vs => t.setCol "geometry" (vs.map (reproj epsg))

/-- The global migration of fieldscapes_finland_2021.py: reproject to
EPSG:3067, recompute area as geometry area times 0.0001, assign
auto-incremented ids, reproject back to EPSG:4326.  The geometry area
computation is GeoPandas functionality, passed as the parameter
area_of. -/
def finland_migrate (reproj : Int → Value → Value) (area_of : Value → Value)
    (t : Table) : Table :=
  let t1 := to_crs reproj 3067 t
  let t2 := t1.setCol "area" ((t1.getColD "geometry").map (fun g => scaleVal (1 / 10000) (area_of g)))
  let t3 := t2.setCol "id" (rangeIds t2.nRows)
  to_crs reproj 4326 t3

/-- The global migration of fieldscapes_vietnam_2021.py: identical to
Finland's except that the projected CRS is EPSG:32648. -/
def vietnam_migrate (reproj : Int → Value → Value) (area_of : Value → Value)
    (t : Table) : Table :=
  let t1 := to_crs reproj 32648 t
  let t2 := t1.setCol "area" ((t1.getColD "geometry").map (fun g => scaleVal (1 / 10000) (area_of g)))
  let t3 := t2.setCol "id" (rangeIds t2.nRows)
  to_crs reproj 4326 t3

/-- The common shape of the Finland and Vietnam global migrations:
reproject to a projected CRS, recompute area from geometry, assign
auto-incremented ids, reproject back to EPSG:4326. -/
def crs_area_id_migrate (reproj : Int → Value → Value)
    (area_of : Value → Value) (epsg : Int) (t : Table) : Table :=
  let t1 := to_crs reproj epsg t
  let t2 := t1.setCol "area"
    ((t1.getColD "geometry").map (fun g => scaleVal (1 / 10000) (area_of g)))
  let t3 := t2.setCol "id" (rangeIds t2.nRows)
  to_crs reproj 4326 t3

/-- The integer carried by a value, zero for non-integer values. -/
def valueInt : Value → Int
  | Value.int n => n
  | _ => 0

/-! ## Concrete fixtures used by witnesses and counterexamples -/

/-- The section 8 scenario table: five rows, a crop-type column and an id
column; exactly three of the five crop values lie in the two-value
allow-list of the scenario filter. -/
def scenarioTable : Table :=
  ⟨[("crop", [Value.str "wheat", Value.str "rye", Value.str "oat",
              Value.str "wheat", Value.str "corn"]),
    ("id", [Value.int 1, Value.int 2, Value.int 3, Value.int 4, Value.int 5])]⟩

/-- The section 8 scenario filter: membership in a two-value allow-list
with the polarity flag set, in the shape of the Denmark and Finland
COLUMN_FILTERS entries. -/
def scenarioFilters : List (String × FilterFn) :=
  [("crop", fun vs => (isin [Value.str "wheat", Value.str "rye"] vs, true))]

/-- A minimal specification whose pipeline is the identity on a one-column
table named a. -/
def simpleSpec : ConversionSpec :=
  ⟨none, [], [], [], [("a", ["a"])]⟩

/-- A schema marking the single column a required. -/
def simpleSchema : ResolvedSchema :=
  [("a", ⟨true, none⟩)]

/-- A one-row, one-column table. -/
def simpleTable : Table :=
  ⟨[("a", [Value.int 1])]⟩

/-- A Finland-shaped table whose land-use column still holds the raw
codes. -/
def finlandRawTable : Table :=
  ⟨[("MAANKAYTTOLAJI", [Value.str "AL", Value.str "PC", Value.str "AL",
                        Value.str "PG", Value.str "AL"]),
    ("geometry", [Value.geom 1, Value.geom 2, Value.geom 3, Value.geom 4,
                  Value.geom 5])]⟩

/-- A Romania-shaped table whose EC_hcat_n column holds ordinary crop
labels and a null, none equal to the concatenated literal. -/
def romaniaTable : Table :=
  ⟨[("EC_hcat_n", [Value.str "arable_crops", Value.str "rice", Value.null])]⟩

/-- An Austria-shaped validation fixture: the required column crop_id has
one injected null. -/
def fixtureTable : Table :=
  ⟨[("crop_name", [Value.str "wheat", Value.str "rye"]),
    ("crop_id", [Value.null, Value.int 5])]⟩

/-- An Austria-shaped resolved-schema fragment marking crop_id and
crop_name required, matching MISSING_SCHEMAS of
fieldscapes_austria_2021.py. -/
def fixtureSchema : ResolvedSchema :=
  [("crop_id", ⟨true, none⟩), ("crop_name", ⟨true, none⟩)]

/-- A row-doubling table transform: a legal global-migration value under
the specification's arbitrary Working Table to Working Table signature. -/
def growMigration (t : Table) : Table :=
  ⟨t.cols.map (fun c => (c.1, c.2 ++ c.2))⟩

/-- A two-row table with a geometry column and duplicated source ids. -/
def geoTable : Table :=
  ⟨[("geometry", [Value.geom 1, Value.geom 2]),
    ("id", [Value.int 7, Value.int 7])]⟩

/-! ## Basic lemmas about masks and table operations -/

theorem maskKeep_nil (m : List Bool) : maskKeep [] m = [] := rfl

theorem maskKeep_cons (v : Value) (vt : List Value) (b : Bool) (mt : List Bool) :
    maskKeep (v :: vt) (b :: mt) =
      if b then v :: maskKeep vt mt else maskKeep vt mt := by
  cases b <;> simp [maskKeep]

theorem maskKeep_length_le (vs : List Value) (m : List Bool) :
    (maskKeep vs m).length ≤ vs.length := by
  induction vs generalizing m with
  | nil => simp [maskKeep_nil]
  | cons v vt ih =>
    cases m with
    | nil => simp [maskKeep]
    | cons b mt =>
      rw [maskKeep_cons]
      cases b with
      | false => simpa using Nat.le_succ_of_le (ih mt)
      | true => simpa using ih mt

theorem maskKeep_of_all_true (vs : List Value) (m : List Bool)
    (hall : ∀ b ∈ m, b = true) (hlen : vs.length ≤ m.length) :
    maskKeep vs m = vs := by
  induction vs generalizing m with
  | nil => exact maskKeep_nil m
  | cons v vt ih =>
    cases m with
    | nil => simp at hlen
    | cons b mt =>
      have hb : b = true := hall b (by simp)
      subst hb
      rw [maskKeep_cons]
      simp only [if_pos trivial, if_true]
      have := ih mt (fun b hb => hall b (by simp [hb])) (by simpa using Nat.le_of_succ_le_succ hlen)
      simp [this]

theorem maskKeep_length_congr (xs ys : List Value) (m : List Bool)
    (h : xs.length = ys.length) :
    (maskKeep xs m).length = (maskKeep ys m).length := by
  induction xs generalizing ys m with
  | nil =>
    cases ys with
    | nil => rfl
    | cons _ _ => simp at h
  | cons x xt ih =>
    cases ys with
    | nil => simp at h
    | cons y yt =>
      cases m with
      | nil => simp [maskKeep]
      | cons b mt =>
        rw [maskKeep_cons, maskKeep_cons]
        have h' : xt.length = yt.length := by simpa using h
        cases b <;> simp [ih yt mt h']

theorem nRows_filterRows_le (t : Table) (m : List Bool) :
    (t.filterRows m).nRows ≤ t.nRows := by
  cases t with
  | mk cols =>
    cases cols with
    | nil => simp [Table.filterRows, Table.nRows]
    | cons c cs => simpa [Table.filterRows, Table.nRows] using maskKeep_length_le c.2 m

theorem wellFormed_filterRows {t : Table} (h : t.wellFormed) (m : List Bool) :
    (t.filterRows m).wellFormed := by
  cases t with
  | mk cols =>
    cases cols with
    | nil => intro c hc; simp [Table.filterRows] at hc
    | cons c0 cs =>
      intro c hc
      simp only [Table.filterRows, List.mem_map] at hc
      obtain ⟨a, ha, rfl⟩ := hc
      have hlen : a.2.length = c0.2.length := by
        have h1 := h a ha
        simp only [Table.nRows] at h1
        exact h1
      simp only [Table.filterRows, Table.nRows, List.map_cons]
      exact maskKeep_length_congr a.2 c0.2 m hlen

theorem find?_key_eq_none {l : List (String × List Value)} {k : String}
    (h : (l.map (fun c => c.1)).contains k = false) :
    l.find? (fun c => c.1 == k) = none := by
  have hnm : k ∉ l.map (fun c => c.1) := by
    simpa [List.contains, List.elem_eq_mem] using h
  rw [List.find?_eq_none]
  intro c hc
  simp only [beq_iff_eq]
  intro hck
  exact hnm (hck ▸ List.mem_map.mpr ⟨c, hc, rfl⟩)

theorem find?_setRep_self (k : String) (vs : List Value)
    (l : List (String × List Value)) (hmem : k ∈ l.map (fun c => c.1)) :
    (l.map (fun c => if c.1 == k then (k, vs) else c)).find? (fun c => c.1 == k)
      = some (k, vs) := by
  induction l with
  | nil => simp at hmem
  | cons c cs ih =>
    by_cases hc : c.1 = k
    · have hhead : (if c.1 == k then (k, vs) else c) = (k, vs) := by simp [hc]
      rw [List.map_cons, hhead, List.find?_cons_of_pos _ (by simp)]
    · have hhead : (if c.1 == k then (k, vs) else c) = c := by simp [hc]
      have hmem' : k ∈ cs.map (fun c => c.1) := by
        rcases List.mem_map.mp hmem with ⟨a, ha, hak⟩
        rcases List.mem_cons.mp ha with rfl | ha'
        · exact absurd hak hc
        · exact List.mem_map.mpr ⟨a, ha', hak⟩
      rw [List.map_cons, hhead, List.find?_cons_of_neg _ (by simp [hc])]
      exact ih hmem'

theorem find?_setRep_ne (k k2 : String) (hne : k ≠ k2) (vs : List Value)
    (l : List (String × List Value)) :
    (l.map (fun c => if c.1 == k then (k, vs) else c)).find? (fun c => c.1 == k2)
      = l.find? (fun c => c.1 == k2) := by
  induction l with
  | nil => rfl
  | cons c cs ih =>
    by_cases hc : c.1 = k
    · have hhead : (if c.1 == k then (k, vs) else c) = (k, vs) := by simp [hc]
      have hck2 : c.1 ≠ k2 := hc ▸ hne
      rw [List.map_cons, hhead, List.find?_cons_of_neg _ (by simp [hne]),
        List.find?_cons_of_neg _ (by simp [hck2])]
      exact ih
    · have hhead : (if c.1 == k then (k, vs) else c) = c := by simp [hc]
      rw [List.map_cons, hhead]
      by_cases hc2 : c.1 = k2
      · rw [List.find?_cons_of_pos _ (by simp [hc2]),
          List.find?_cons_of_pos _ (by simp [hc2])]
      · rw [List.find?_cons_of_neg _ (by simp [hc2]),
          List.find?_cons_of_neg _ (by simp [hc2])]
        exact ih

theorem getCol_setCol_self (t : Table) (k : String) (vs : List Value) :
    (t.setCol k vs).getCol k = some vs := by
  cases t with
  | mk cols =>
    unfold Table.setCol Table.getCol
    split
    · next hcont =>
      have hmem : k ∈ cols.map (fun c => c.1) := by
        simpa [Table.colNames, List.contains, List.elem_eq_mem] using hcont
      show Option.map (fun c => c.2)
          (List.find? (fun c => c.1 == k)
            (cols.map (fun c => if c.1 == k then (k, vs) else c))) = some vs
      rw [find?_setRep_self k vs cols hmem]
      rfl
    · next hcont =>
      have hnone : cols.find? (fun c => c.1 == k) = none := by
        apply find?_key_eq_none
        simpa [Table.colNames] using (Bool.eq_false_iff.mpr hcont)
      show Option.map (fun c => c.2)
          (List.find? (fun c => c.1 == k) (cols ++ [(k, vs)])) = some vs
      rw [List.find?_append, hnone, Option.none_or,
        List.find?_cons_of_pos _ (by simp)]
      rfl

theorem getCol_setCol_ne (t : Table) {k k2 : String} (hne : k ≠ k2) (vs : List Value) :
    (t.setCol k vs).getCol k2 = t.getCol k2 := by
  cases t with
  | mk cols =>
    unfold Table.setCol Table.getCol
    split
    · show Option.map (fun c => c.2)
          (List.find? (fun c => c.1 == k2)
            (cols.map (fun c => if c.1 == k then (k, vs) else c)))
        = Option.map (fun c => c.2) (List.find? (fun c => c.1 == k2) cols)
      rw [find?_setRep_ne k k2 hne vs cols]
    · have h1 : ([(k, vs)].find? (fun c => c.1 == k2)) = none := by
        rw [List.find?_cons_of_neg _ (by simp [hne])]
        rfl
      show Option.map (fun c => c.2)
          (List.find? (fun c => c.1 == k2) (cols ++ [(k, vs)]))
        = Option.map (fun c => c.2) (List.find? (fun c => c.1 == k2) cols)
      rw [List.find?_append, h1, Option.or_none]

theorem nRows_setCol {t : Table} {vs : List Value} (h : vs.length = t.nRows)
    (k : String) : (t.setCol k vs).nRows = t.nRows := by
  cases t with
  | mk cols =>
    unfold Table.setCol
    split
    · cases cols with
      | nil => simp [Table.nRows]
      | cons c cs =>
        show (Table.mk ((if c.1 == k then (k, vs) else c) ::
          cs.map (fun c => if c.1 == k then (k, vs) else c))).nRows = _
        by_cases hc : c.1 = k
        · simp only [Table.nRows, if_pos (by simp [hc] : (c.1 == k) = true)]
          exact h
        · simp only [Table.nRows, if_neg (by simp [hc] : ¬ (c.1 == k) = true)]
    · cases cols with
      | nil =>
        show (Table.mk [(k, vs)]).nRows = (Table.mk ([] : List (String × List Value))).nRows
        simpa [Table.nRows] using h
      | cons c cs =>
        show (Table.mk ((c :: cs) ++ [(k, vs)])).nRows = _
        simp [Table.nRows]

theorem wellFormed_setCol {t : Table} (hw : t.wellFormed) {vs : List Value}
    (h : vs.length = t.nRows) (k : String) : (t.setCol k vs).wellFormed := by
  have hn := nRows_setCol h k
  intro c hc
  rw [hn]
  cases t with
  | mk cols =>
    unfold Table.setCol at hc
    split at hc
    · rcases List.mem_map.mp hc with ⟨a, ha, rfl⟩
      by_cases hak : a.1 = k
      · simp only [if_pos (by simp [hak] : (a.1 == k) = true)]
        exact h
      · simp only [if_neg (by simp [hak] : ¬ (a.1 == k) = true)]
        exact hw a ha
    · rcases List.mem_append.mp hc with ha | ha
      · exact hw c ha
      · rcases List.mem_singleton.mp ha with rfl
        exact h

theorem length_of_getCol {t : Table} (hw : t.wellFormed) {k : String}
    {vs : List Value} (h : t.getCol k = some vs) : vs.length = t.nRows := by
  unfold Table.getCol at h
  rcases hfind : t.cols.find? (fun c => c.1 == k) with _ | c
  · rw [hfind] at h
    simp at h
  · rw [hfind] at h
    simp at h
    rw [← h]
    exact hw c (List.mem_of_find?_eq_some hfind)

/-! ## Row count and well-formedness through the pipeline stages -/

theorem nRows_filterStep_le (t : Table) (f : String × FilterFn) :
    (filterStep t f).nRows ≤ t.nRows := by
  unfold filterStep
  split
  · exact le_refl _
  · exact nRows_filterRows_le _ _

theorem wellFormed_filterStep {t : Table} (h : t.wellFormed)
    (f : String × FilterFn) : (filterStep t f).wellFormed := by
  unfold filterStep
  split
  · exact h
  · exact wellFormed_filterRows h _

theorem nRows_applyFilters_le (fs : List (String × FilterFn)) :
    ∀ t : Table, (applyFilters fs t).nRows ≤ t.nRows := by
  induction fs with
  | nil => intro t; exact le_refl _
  | cons f ft ih =>
    intro t
    exact le_trans (ih (filterStep t f)) (nRows_filterStep_le t f)

theorem wellFormed_applyFilters (fs : List (String × FilterFn)) :
    ∀ t : Table, t.wellFormed → (applyFilters fs t).wellFormed := by
  induction fs with
  | nil => intro t h; exact h
  | cons f ft ih =>
    intro t h
    exact ih (filterStep t f) (wellFormed_filterStep h f)

theorem nRows_additionStep (t : Table) (a : String × Value) :
    (additionStep t a).nRows = t.nRows :=
  nRows_setCol (by simp) a.1

theorem wellFormed_additionStep {t : Table} (h : t.wellFormed)
    (a : String × Value) : (additionStep t a).wellFormed :=
  wellFormed_setCol h (by simp) a.1

theorem nRows_applyAdditions (adds : List (String × Value)) :
    ∀ t : Table, (applyAdditions adds t).nRows = t.nRows := by
  induction adds with
  | nil => intro t; rfl
  | cons a at' ih =>
    intro t
    exact (ih (additionStep t a)).trans (nRows_additionStep t a)

theorem wellFormed_applyAdditions (adds : List (String × Value)) :
    ∀ t : Table, t.wellFormed → (applyAdditions adds t).wellFormed := by
  induction adds with
  | nil => intro t h; exact h
  | cons a at' ih =>
    intro t h
    exact ih (additionStep t a) (wellFormed_additionStep h a)

theorem conformLength_length (n : Nat) (vs : List Value) :
    (conformLength n vs).length = n := by
  simp [conformLength]
  omega

theorem nRows_migrationStep (t : Table) (m : String × MigrationFn) :
    (migrationStep t m).nRows = t.nRows := by
  unfold migrationStep
  split
  · rfl
  · exact nRows_setCol (conformLength_length _ _) m.1

theorem wellFormed_migrationStep {t : Table} (h : t.wellFormed)
    (m : String × MigrationFn) : (migrationStep t m).wellFormed := by
  unfold migrationStep
  split
  · exact h
  · exact wellFormed_setCol h (conformLength_length _ _) m.1

theorem nRows_applyColumnMigrations (ms : List (String × MigrationFn)) :
    ∀ t : Table, (applyColumnMigrations ms t).nRows = t.nRows := by
  induction ms with
  | nil => intro t; rfl
  | cons m mt ih =>
    intro t
    exact (ih (migrationStep t m)).trans (nRows_migrationStep t m)

theorem wellFormed_applyColumnMigrations (ms : List (String × MigrationFn)) :
    ∀ t : Table, t.wellFormed → (applyColumnMigrations ms t).wellFormed := by
  induction ms with
  | nil => intro t h; exact h
  | cons m mt ih =>
    intro t h
    exact ih (migrationStep t m) (wellFormed_migrationStep h m)

theorem dupFold_nRows_wf (vs : List Value) :
    ∀ (tgts : List String) (acc : Table), acc.wellFormed → vs.length = acc.nRows →
      ((tgts.foldl (fun a tgt => a.setCol tgt vs) acc).nRows = acc.nRows ∧
       (tgts.foldl (fun a tgt => a.setCol tgt vs) acc).wellFormed) := by
  intro tgts
  induction tgts with
  | nil => intro acc hw _; exact ⟨rfl, hw⟩
  | cons tg tgt ih =>
    intro acc hw hv
    have h1 : (acc.setCol tg vs).nRows = acc.nRows := nRows_setCol hv tg
    have h2 : (acc.setCol tg vs).wellFormed := wellFormed_setCol hw hv tg
    have h3 := ih (acc.setCol tg vs) h2 (hv.trans h1.symm)
    exact ⟨h3.1.trans h1, h3.2⟩

theorem nRows_wellFormed_duplicationStep {t : Table} (hw : t.wellFormed)
    (c : String × List String) :
    (duplicationStep t c).nRows = t.nRows ∧ (duplicationStep t c).wellFormed := by
  unfold duplicationStep
  split
  · split
    · exact ⟨rfl, hw⟩
    · next vs hvs =>
      exact dupFold_nRows_wf vs c.2 t hw (length_of_getCol hw hvs)
  · exact ⟨rfl, hw⟩

theorem nRows_wellFormed_applyDuplication (columns : List (String × List String)) :
    ∀ t : Table, t.wellFormed →
      ((applyDuplication columns t).nRows = t.nRows ∧
       (applyDuplication columns t).wellFormed) := by
  induction columns with
  | nil => intro t hw; exact ⟨rfl, hw⟩
  | cons c ct ih =>
    intro t hw
    have h1 := nRows_wellFormed_duplicationStep hw c
    have h2 := ih (duplicationStep t c) h1.2
    exact ⟨h2.1.trans h1.1, h2.2⟩

theorem nRows_applyRename (columns : List (String × List String)) (t : Table) :
    (applyRename columns t).nRows = t.nRows := by
  cases t with
  | mk cols =>
    cases cols with
    | nil => rfl
    | cons c cs =>
      unfold applyRename
      simp only [List.map_cons, Table.nRows]
      split <;> rfl

theorem wellFormed_applyRename {t : Table} (hw : t.wellFormed)
    (columns : List (String × List String)) :
    (applyRename columns t).wellFormed := by
  intro c hc
  rw [nRows_applyRename]
  unfold applyRename at hc
  rcases List.mem_map.mp hc with ⟨a, ha, rfl⟩
  have h1 := hw a ha
  split <;> simpa using h1

theorem mem_applyPrune {columns : List (String × List String)} {t : Table}
    {c : String × List Value} (hc : c ∈ (applyPrune columns t).cols) :
    c ∈ t.cols ∧ c.1 ∈ targetSet columns := by
  unfold applyPrune at hc
  have h1 := List.mem_filter.mp hc
  refine ⟨h1.1, ?_⟩
  simpa [List.contains, List.elem_eq_mem] using h1.2

theorem nRows_applyPrune_le {t : Table} (hw : t.wellFormed)
    (columns : List (String × List String)) :
    (applyPrune columns t).nRows ≤ t.nRows := by
  unfold applyPrune
  rcases hfl : t.cols.filter (fun c => (targetSet columns).contains c.1) with _ | ⟨c, cs⟩
  · rw [hfl]
    show (Table.mk []).nRows ≤ _
    simp [Table.nRows]
  · rw [hfl]
    show (Table.mk (c :: cs)).nRows ≤ _
    have hmem : c ∈ t.cols := by
      have : c ∈ t.cols.filter (fun c => (targetSet columns).contains c.1) := by
        rw [hfl]
        exact List.mem_cons_self c cs
      exact (List.mem_filter.mp this).1
    simp only [Table.nRows]
    rw [hw c hmem]
    exact le_refl _

theorem maskKeep_of_all_false (vs : List Value) (m : List Bool)
    (hall : ∀ b ∈ m, b = false) : maskKeep vs m = [] := by
  induction vs generalizing m with
  | nil => exact maskKeep_nil m
  | cons v vt ih =>
    cases m with
    | nil => simp [maskKeep]
    | cons b mt =>
      have hb : b = false := hall b (by simp)
      subst hb
      rw [maskKeep_cons]
      simp only [Bool.false_eq_true, if_false]
      exact ih mt (fun b hb => hall b (by simp [hb]))

theorem filterRows_all_true {t : Table} (hw : t.wellFormed) {m : List Bool}
    (hall : ∀ b ∈ m, b = true) (hlen : t.nRows ≤ m.length) :
    t.filterRows m = t := by
  cases t with
  | mk cols =>
    unfold Table.filterRows
    congr 1
    have h2 : cols.map (fun c => (c.1, maskKeep c.2 m)) = cols.map id :=
      List.map_congr_left (fun c hc => by
        rw [maskKeep_of_all_true c.2 m hall ((hw c hc).le.trans hlen)]
        rfl)
    rw [h2, List.map_id]

theorem getCol_isSome_of_mem {t : Table} {k : String} (h : k ∈ t.colNames) :
    ∃ vs, t.getCol k = some vs := by
  rcases List.mem_map.mp h with ⟨c, hc, rfl⟩
  unfold Table.getCol
  rcases hfind : t.cols.find? (fun e => e.1 == c.1) with _ | x
  · rw [List.find?_eq_none] at hfind
    exact absurd (by simp) (hfind c hc)
  · exact ⟨x.2, by rw [hfind]; rfl⟩

/-! ## to_crs lemmas -/

theorem nRows_to_crs {t : Table} (hw : t.wellFormed)
    (reproj : Int → Value → Value) (epsg : Int) :
    (to_crs reproj epsg t).nRows = t.nRows := by
  unfold to_crs
  split
  · rfl
  · next vs hvs =>
    exact nRows_setCol (by simpa using length_of_getCol hw hvs) _

theorem wellFormed_to_crs {t : Table} (hw : t.wellFormed)
    (reproj : Int → Value → Value) (epsg : Int) :
    (to_crs reproj epsg t).wellFormed := by
  unfold to_crs
  split
  · exact hw
  · next vs hvs =>
    exact wellFormed_setCol hw (by simpa using length_of_getCol hw hvs) _

theorem getCol_to_crs_ne (t : Table) {k : String} (hk : k ≠ "geometry")
    (reproj : Int → Value → Value) (epsg : Int) :
    (to_crs reproj epsg t).getCol k = t.getCol k := by
  unfold to_crs
  split
  · rfl
  · exact getCol_setCol_ne t (fun h => hk h.symm) _

theorem getCol_to_crs_geom {t : Table} {vs : List Value}
    (h : t.getCol "geometry" = some vs)
    (reproj : Int → Value → Value) (epsg : Int) :
    (to_crs reproj epsg t).getCol "geometry" = some (vs.map (reproj epsg)) := by
  unfold to_crs
  split
  · next hnone => rw [hnone] at h; exact absurd h (by simp)
  · next vs2 hvs2 =>
    rw [hvs2] at h
    rw [Option.some.injEq] at h
    rw [h]
    exact getCol_setCol_self t "geometry" _

/-! ## rangeIds lemmas -/

theorem rangeIds_length (n : Nat) : (rangeIds n).length = n := by
  rw [rangeIds, List.length_map, List.length_range]

theorem rangeIds_pairwise_lt (n : Nat) :
    (rangeIds n).Pairwise (fun a b => valueInt a < valueInt b) := by
  unfold rangeIds
  refine List.Pairwise.map _ (fun a b (hab : a < b) => ?_) (List.pairwise_lt_range n)
  show Int.ofNat (a + 1) < Int.ofNat (b + 1)
  exact Int.ofNat_lt.mpr (by omega)

theorem rangeIds_nodup (n : Nat) : (rangeIds n).Nodup :=
  (rangeIds_pairwise_lt n).imp (fun h heq => by rw [heq] at h; exact lt_irrefl _ h)

/-! ## Validator lemmas -/

theorem validateTable_ok {sch : ResolvedSchema} {t u : Table}
    (h : validateTable sch t = .ok u) :
    u = t ∧ ∀ c ∈ t.cols, columnError sch c = none := by
  unfold validateTable at h
  rcases hf : t.cols.findSome? (columnError sch) with _ | e
  · rw [hf] at h
    simp only [Except.ok.injEq] at h
    exact ⟨h.symm, List.findSome?_eq_none_iff.mp hf⟩
  · rw [hf] at h
    simp at h

theorem checkColumn_of_required_null {name : String} {cs : ColSchema}
    {vs : List Value} (hr : cs.required = true) (hn : 0 < nullCount vs) :
    checkColumn name cs vs = some (.missingRequiredField name (nullCount vs)) := by
  unfold checkColumn
  rw [if_pos ⟨hr, hn⟩]

theorem checkColumn_missingRequired {name : String} {cs : ColSchema}
    {vs : List Value} {n : String} {cnt : Nat}
    (h : checkColumn name cs vs = some (.missingRequiredField n cnt)) :
    cs.required = true ∧ 0 < nullCount vs := by
  unfold checkColumn at h
  split at h
  · next hcond => exact hcond
  · split at h
    · split at h
      · simp at h
      · simp at h
    · simp at h

theorem findSome?_single {α β : Type} (f : α → Option β) (p : α → Prop) (e : β) :
    ∀ l : List α, (∀ c ∈ l, ¬ p c → f c = none) → (∀ c ∈ l, p c → f c = some e) →
      (∃ c ∈ l, p c) → l.findSome? f = some e := by
  intro l
  induction l with
  | nil => intro _ _ hex; simp at hex
  | cons c cs ih =>
    intro hother hk hex
    by_cases hp : p c
    · rw [List.findSome?_cons_of_isSome _ (by simp [hk c (by simp) hp])]
      exact hk c (by simp) hp
    · rw [List.findSome?_cons_of_isNone _ (by simp [hother c (by simp) hp])]
      refine ih (fun x hx => hother x (by simp [hx])) (fun x hx => hk x (by simp [hx])) ?_
      rcases hex with ⟨x, hx, hpx⟩
      rcases List.mem_cons.mp hx with rfl | hx'
      · exact absurd hpx hp
      · exact ⟨x, hx', hpx⟩

/-! ## Claims -/

/-- Claim C1: for every dataset specification the conversion engine applies
the transform pipeline as the fixed composition of the seven stages —
global migration, row filtering, constant-column injection, column
migrations, column duplication, rename, prune — and a stage whose
configuration is empty (absent migration function, empty filter map, empty
constant-column map, empty migration map) is the identity on the working
table; the composition is definitionally fixed, so no specification
content can reorder the stages. -/
theorem C1_pipeline_fixed_order :
    ∀ (spec : ConversionSpec) (t : Table),
      runPipeline spec t =
        applyPrune spec.columns
          (applyRename spec.columns
            (applyDuplication spec.columns
              (applyColumnMigrations spec.column_migrations
                (applyAdditions spec.column_additions
                  (applyFilters spec.column_filters
                    (applyGlobalMigration spec.migration t))))))
      ∧ applyGlobalMigration none t = t
      ∧ applyFilters [] t = t
      ∧ applyAdditions [] t = t
      ∧ applyColumnMigrations [] t = t := by
  intro spec t
  exact ⟨rfl, rfl, rfl, rfl, rfl⟩

/-- Claim C2, counterexample: in the section 8 scenario — five rows, a
single filter returning the membership mask over a two-value allow-list
and polarity True, three rows matching — the row-filtering stage modelled
from the specification inverts the mask, so the output has the two
non-matching rows, not the three matching ones. -/
theorem C2_counterexample :
    (applyFilters scenarioFilters scenarioTable).nRows = 2 ∧
    ¬ (applyFilters scenarioFilters scenarioTable).nRows = 3 := by
  constructor
  · rfl
  · decide

/-- Claim C2 as amended: in the section 8 scenario the row-filtering stage
outputs exactly the two rows whose values are not in the allow-list, in
their original relative order, because the polarity flag inverts the
membership mask before it is applied. -/
theorem C2_filter_scenario :
    applyFilters scenarioFilters scenarioTable =
      ⟨[("crop", [Value.str "oat", Value.str "corn"]),
        ("id", [Value.int 3, Value.int 5])]⟩ := by
  rfl

/-- Claim C6: after the prune stage every column remaining in the working
table is a member of the rename map's target set; in particular, for a
specification with the Austria rename map, the constant column
determination_datetime injected in stage 3 is not in the target set and
therefore does not survive to the output. -/
theorem C6_prune_targets :
    (∀ (columns : List (String × List String)) (t : Table)
        (c : String × List Value), c ∈ (applyPrune columns t).cols →
        c.1 ∈ targetSet columns)
    ∧ ∀ (spec : ConversionSpec) (t : Table), spec.columns = austria_COLUMNS →
        "determination_datetime" ∉ (runPipeline spec t).colNames := by
  constructor
  · intro columns t c hc
    exact (mem_applyPrune hc).2
  · intro spec t hcols hmem
    rcases List.mem_map.mp hmem with ⟨c, hc, hname⟩
    have h2 : c.1 ∈ targetSet spec.columns := (mem_applyPrune hc).2
    rw [hcols, hname] at h2
    exact absurd h2 (by decide)

/-- Claim C6, witness: a concrete pruned column is in the target set, and
for the concrete Austria-shaped specification the injected constant column
is absent from the pipeline output. -/
theorem C6_prune_targets_witness :
    "a" ∈ targetSet [("a", ["a"])] ∧
    "determination_datetime" ∉
      (runPipeline ⟨none, [], austria_ADD_COLUMNS, [], austria_COLUMNS⟩
        simpleTable).colNames :=
  ⟨(C6_prune_targets.1 [("a", ["a"])] simpleTable ("a", [Value.int 1])
      (by decide)),
   (C6_prune_targets.2 ⟨none, [], austria_ADD_COLUMNS, [], austria_COLUMNS⟩
      simpleTable rfl)⟩

/-- Claim C9: with every component of the engine a pure function, a
conversion run is deterministic — any two successful runs of the same
source table under the same specification and schema produce identical
output tables, identical in row order and content. -/
theorem C9_deterministic_output :
    ∀ (spec : ConversionSpec) (sch : ResolvedSchema) (t u1 u2 : Table),
      runConversion spec sch t = .ok u1 → runConversion spec sch t = .ok u2 →
      u1 = u2 ∧ u1.cols = u2.cols := by
  intro spec sch t u1 u2 h1 h2
  rw [h1] at h2
  have h3 := Except.ok.inj h2
  exact ⟨h3, by rw [h3]⟩

/-- Claim C9, witness: two concrete runs of the same one-row conversion
give the same output table. -/
theorem C9_deterministic_output_witness :
    (⟨[("a", [Value.int 1])]⟩ : Table) = ⟨[("a", [Value.int 1])]⟩ ∧
    (⟨[("a", [Value.int 1])]⟩ : Table).cols = (⟨[("a", [Value.int 1])]⟩ : Table).cols :=
  C9_deterministic_output simpleSpec simpleSchema simpleTable _ _ rfl rfl

/-- Claim C3: the pipeline runs row filtering strictly before the column
migrations, so a filter configured on the same column as a migration sees
the pre-migration values; for the Finland specification, whose filter
tests membership in the singleton Arable Land while the column migration
maps the raw codes to those labels only afterwards, the mask is computed
over the raw codes — all false, so after polarity inversion the filter
stage keeps every row. -/
theorem C3_filter_premigration :
    (∀ (spec : ConversionSpec) (t : Table),
        runPipeline spec t =
          applyPrune spec.columns
            (applyRename spec.columns
              (applyDuplication spec.columns
                (applyColumnMigrations spec.column_migrations
                  (applyAdditions spec.column_additions
                    (applyFilters spec.column_filters
                      (applyGlobalMigration spec.migration t)))))))
    ∧ ∀ (t : Table) (vs : List Value), t.wellFormed →
        t.getCol "MAANKAYTTOLAJI" = some vs →
        (∀ v ∈ vs, v ∈ finland_raw_codes) →
        (∀ b ∈ isin [Value.str "Arable Land"] vs, b = false)
        ∧ applyFilters finland_COLUMN_FILTERS t = t := by
  constructor
  · intro spec t
    rfl
  · intro t vs hw hcol hraw
    have hmask : ∀ b ∈ isin [Value.str "Arable Land"] vs, b = false := by
      intro b hb
      rcases List.mem_map.mp hb with ⟨v, hv, rfl⟩
      have hvr := hraw v hv
      simp only [finland_raw_codes, List.mem_cons, List.mem_singleton,
        List.not_mem_nil, or_false] at hvr
      rcases hvr with rfl | rfl | rfl <;> decide
    refine ⟨hmask, ?_⟩
    have happ : applyFilters finland_COLUMN_FILTERS t =
        filterStep t ("MAANKAYTTOLAJI",
          fun vs => (isin [Value.str "Arable Land"] vs, true)) := rfl
    rw [happ]
    unfold filterStep
    rw [hcol]
    show t.filterRows ((isin [Value.str "Arable Land"] vs).map (fun b => !b)) = t
    apply filterRows_all_true hw
    · intro b hb
      rcases List.mem_map.mp hb with ⟨b0, hb0, rfl⟩
      rw [hmask b0 hb0]
      rfl
    · rw [List.length_map, isin, List.length_map]
      exact (length_of_getCol hw hcol).ge

/-- Claim C3, witness: on a concrete five-row Finland-shaped table whose
land-use column holds only raw codes, the Finland filter mask is all false
and the filter stage keeps all five rows. -/
theorem C3_filter_premigration_witness :
    (∀ b ∈ isin [Value.str "Arable Land"]
        [Value.str "AL", Value.str "PC", Value.str "AL", Value.str "PG",
         Value.str "AL"], b = false)
    ∧ applyFilters finland_COLUMN_FILTERS finlandRawTable = finlandRawTable :=
  C3_filter_premigration.2 finlandRawTable
    [Value.str "AL", Value.str "PC", Value.str "AL", Value.str "PG",
     Value.str "AL"]
    (by decide) rfl (by decide)

/-- Claim C4: a row filter whose allow-list is a single concatenated
string literal — as in the Romania specification, where adjacent Python
literals fuse into arable_cropsrice — is evaluated without error: the
membership mask is false at every value different from the concatenated
string, so the mask selects zero rows, and the filter stage still computes
a well-defined table. -/
theorem C4_concatenated_literal_filter :
    ∀ (t : Table) (vs : List Value) (f : String × FilterFn),
      f ∈ romania_COLUMN_FILTERS →
      t.getCol "EC_hcat_n" = some vs →
      (∀ v ∈ vs, v ≠ Value.str "arable_cropsrice") →
      (∀ b ∈ (f.2 vs).1, b = false)
      ∧ maskKeep vs (f.2 vs).1 = []
      ∧ applyFilters romania_COLUMN_FILTERS t =
          t.filterRows (((f.2 vs).1).map (fun b => !b)) := by
  intro t vs f hf hcol hne
  have hfeq : f = ("EC_hcat_n", romania_filter_fn) := List.mem_singleton.mp hf
  subst hfeq
  have hmask : ∀ b ∈ isin [Value.str "arable_cropsrice"] vs, b = false := by
    intro b hb
    rcases List.mem_map.mp hb with ⟨v, hv, rfl⟩
    have := hne v hv
    simp [List.contains, List.elem_eq_mem, List.mem_singleton, this]
  refine ⟨hmask, maskKeep_of_all_false vs _ hmask, ?_⟩
  have happ : applyFilters romania_COLUMN_FILTERS t =
      filterStep t ("EC_hcat_n", romania_filter_fn) := rfl
  rw [happ]
  unfold filterStep
  rw [hcol]
  rfl

/-- Claim C4, witness: the Romania filter on a three-row table of ordinary
crop labels gives an all-false mask, zero matching rows, and a computed
filter stage. -/
theorem C4_concatenated_literal_filter_witness :
    (∀ b ∈ (romania_filter_fn
        [Value.str "arable_crops", Value.str "rice", Value.null]).1, b = false)
    ∧ maskKeep [Value.str "arable_crops", Value.str "rice", Value.null]
        (romania_filter_fn
          [Value.str "arable_crops", Value.str "rice", Value.null]).1 = []
    ∧ applyFilters romania_COLUMN_FILTERS romaniaTable =
        romaniaTable.filterRows
          (((romania_filter_fn
              [Value.str "arable_crops", Value.str "rice", Value.null]).1).map
            (fun b => !b)) :=
  C4_concatenated_literal_filter romaniaTable
    [Value.str "arable_crops", Value.str "rice", Value.null]
    ("EC_hcat_n", romania_filter_fn)
    (List.mem_singleton.mpr rfl) rfl (by decide)

/-- Claim C5: a categorical column migration given as a remapping table
sends every value that is not a key of the table to null and raises no
error (the migration stage is a total function); a null can only turn into
a MissingRequiredField failure later, at validation, and only when the
resolved schema marks the column required. -/
theorem C5_unmapped_becomes_null :
    (∀ (table : List (Value × Value)) (vs : List Value) (i : Nat) (v : Value),
        vs[i]? = some v →
        table.find? (fun e => e.1 == v) = none →
        (mapSeries table vs)[i]? = some Value.null)
    ∧ (∀ (name : String) (cs : ColSchema) (vs : List Value) (n : String)
        (cnt : Nat),
        checkColumn name cs vs = some (.missingRequiredField n cnt) →
        cs.required = true ∧ 0 < nullCount vs) := by
  constructor
  · intro table vs i v hv hfind
    unfold mapSeries
    rw [List.getElem?_map, hv]
    simp [hfind]
  · intro name cs vs n cnt h
    exact checkColumn_missingRequired h

/-- Claim C5, witness: the raw code XX is not a key of the Finland mapping
table, so the migrated column holds null at its position; and a concrete
missing-required failure arises only from a required column with a null. -/
theorem C5_unmapped_becomes_null_witness :
    (mapSeries finland_LANDUSE_MAP [Value.str "AL", Value.str "XX"])[1]?
      = some Value.null
    ∧ ((⟨true, none⟩ : ColSchema).required = true
        ∧ 0 < nullCount [Value.null, Value.int 5]) :=
  ⟨C5_unmapped_becomes_null.1 finland_LANDUSE_MAP
      [Value.str "AL", Value.str "XX"] 1 (Value.str "XX") rfl (by decide),
   C5_unmapped_becomes_null.2 "crop_id" ⟨true, none⟩
      [Value.null, Value.int 5] "crop_id" 1 rfl⟩

/-- Claim C7: a conversion run succeeds only if every column marked
required in the resolved schema is fully non-null in the output table; and
when the one violation is a null remaining in a required column, the run
fails with MissingRequiredField carrying the column name and the offending
row count — the Except.error result carries no output table. -/
theorem C7_required_nonnull :
    (∀ (sch : ResolvedSchema) (spec : ConversionSpec) (t u : Table),
        runConversion spec sch t = .ok u →
        ∀ (k : String) (vs : List Value) (cs : ColSchema),
          (k, vs) ∈ u.cols →
          (sch.find? (fun e => e.1 == k)).map (fun e => e.2) = some cs →
          cs.required = true →
          nullCount vs = 0)
    ∧ (∀ (sch : ResolvedSchema) (t : Table) (k : String) (vs : List Value)
        (cs : ColSchema),
        (∀ c ∈ t.cols, c.1 ≠ k → columnError sch c = none) →
        t.getCol k = some vs →
        (∀ c ∈ t.cols, c.1 = k → c.2 = vs) →
        (sch.find? (fun e => e.1 == k)).map (fun e => e.2) = some cs →
        cs.required = true → 0 < nullCount vs →
        validateTable sch t = .error (.missingRequiredField k (nullCount vs))) := by
  constructor
  · intro sch spec t u hrun k vs cs hmem hsch hreq
    have hrun2 : validateTable sch (runPipeline spec t) = .ok u := hrun
    have h1 := validateTable_ok hrun2
    rw [h1.1] at hmem
    have hce : columnError sch (k, vs) = none := h1.2 (k, vs) hmem
    have hce2 : (match (sch.find? (fun e => e.1 == k)).map (fun e => e.2) with
        | none => some (VError.unknownColumn k)
        | some cs => checkColumn k cs vs) = none := hce
    rw [hsch] at hce2
    have hce3 : checkColumn k cs vs = none := hce2
    by_contra hnz
    have h4 := @checkColumn_of_required_null k cs vs hreq
      (Nat.pos_of_ne_zero hnz)
    rw [hce3] at h4
    exact Option.noConfusion h4
  · intro sch t k vs cs hother hget hkvs hsch hreq hnull
    unfold validateTable
    have hfs : t.cols.findSome? (columnError sch) =
        some (.missingRequiredField k (nullCount vs)) := by
      apply findSome?_single (columnError sch) (fun c => c.1 = k)
      · intro c hc hnk
        exact hother c hc hnk
      · intro c hc hck
        have hcv : c.2 = vs := hkvs c hc hck
        have hce2 : columnError sch c =
            (match (sch.find? (fun e => e.1 == c.1)).map (fun e => e.2) with
              | none => some (VError.unknownColumn c.1)
              | some cs => checkColumn c.1 cs c.2) := rfl
        rw [hce2, hck, hcv, hsch]
        exact checkColumn_of_required_null hreq hnull
      · unfold Table.getCol at hget
        rcases hfind : t.cols.find? (fun c => c.1 == k) with _ | c
        · rw [hfind] at hget
          exact Option.noConfusion hget
        · have hmem := List.mem_of_find?_eq_some hfind
          have hpk := List.find?_some hfind
          exact ⟨c, hmem, by simpa using hpk⟩
    rw [hfs]

/-- Claim C7, witness: a successful minimal run has its required column
fully non-null, and the Austria-shaped fixture with one injected null in
the required crop_id column fails with MissingRequiredField naming crop_id
and one offending row. -/
theorem C7_required_nonnull_witness :
    nullCount [Value.int 1] = 0
    ∧ validateTable fixtureSchema fixtureTable =
        .error (.missingRequiredField "crop_id"
          (nullCount [Value.null, Value.int 5])) :=
  ⟨C7_required_nonnull.1 simpleSchema simpleSpec simpleTable
      ⟨[("a", [Value.int 1])]⟩ rfl "a" [Value.int 1] ⟨true, none⟩
      (by decide) rfl rfl,
   C7_required_nonnull.2 fixtureSchema fixtureTable "crop_id"
      [Value.null, Value.int 5] ⟨true, none⟩
      (by decide) rfl (by decide) rfl rfl (by decide)⟩

/-- Claim C8, counterexample: the global-migration stage accepts an
arbitrary user-supplied function, and a row-doubling migration grows a
one-row table to two rows, so the row count does not shrink or stay
constant at every stage. -/
theorem C8_counterexample :
    (applyGlobalMigration (some growMigration) simpleTable).nRows = 2
    ∧ ¬ (applyGlobalMigration (some growMigration) simpleTable).nRows
        ≤ simpleTable.nRows := by
  constructor
  · rfl
  · decide

/-- Claim C8 as amended: from the output of the global migration onwards
the row count never grows — filtering can only shrink it and every other
stage preserves or shrinks it — but stage 1 itself is an arbitrary
user-supplied function and preserves the row count only when that function
does (as all migrations defined in this repository do). -/
theorem C8_row_count_never_grows :
    (∀ (spec : ConversionSpec) (t : Table),
        (applyGlobalMigration spec.migration t).wellFormed →
        (runPipeline spec t).nRows ≤ (applyGlobalMigration spec.migration t).nRows)
    ∧ (∀ (fs : List (String × FilterFn)) (t : Table),
        (applyFilters fs t).nRows ≤ t.nRows)
    ∧ (∀ (adds : List (String × Value)) (t : Table),
        (applyAdditions adds t).nRows = t.nRows)
    ∧ (∀ (ms : List (String × MigrationFn)) (t : Table),
        (applyColumnMigrations ms t).nRows = t.nRows)
    ∧ (∀ (columns : List (String × List String)) (t : Table), t.wellFormed →
        (applyDuplication columns t).nRows = t.nRows)
    ∧ (∀ (columns : List (String × List String)) (t : Table),
        (applyRename columns t).nRows = t.nRows)
    ∧ (∀ (columns : List (String × List String)) (t : Table), t.wellFormed →
        (applyPrune columns t).nRows ≤ t.nRows) := by
  refine ⟨?_, nRows_applyFilters_le, nRows_applyAdditions,
    nRows_applyColumnMigrations,
    (fun columns t hw => (nRows_wellFormed_applyDuplication columns t hw).1),
    nRows_applyRename,
    (fun columns t hw => nRows_applyPrune_le hw columns)⟩
  intro spec t hw1
  have h2wf := wellFormed_applyFilters spec.column_filters
    (applyGlobalMigration spec.migration t) hw1
  have h3wf := wellFormed_applyAdditions spec.column_additions _ h2wf
  have h4wf := wellFormed_applyColumnMigrations spec.column_migrations _ h3wf
  have h5 := nRows_wellFormed_applyDuplication spec.columns _ h4wf
  have h6wf := wellFormed_applyRename h5.2 spec.columns
  have h7 := nRows_applyPrune_le h6wf spec.columns
  show (applyPrune spec.columns
      (applyRename spec.columns
        (applyDuplication spec.columns
          (applyColumnMigrations spec.column_migrations
            (applyAdditions spec.column_additions
              (applyFilters spec.column_filters
                (applyGlobalMigration spec.migration t))))))).nRows
    ≤ (applyGlobalMigration spec.migration t).nRows
  refine le_trans h7 ?_
  rw [nRows_applyRename, h5.1, nRows_applyColumnMigrations,
    nRows_applyAdditions]
  exact nRows_applyFilters_le _ _

/-- Claim C8, witness: for the concrete minimal specification and one-row
table, the pipeline output from the global-migration stage onwards has at
most the one row. -/
theorem C8_row_count_never_grows_witness :
    (runPipeline simpleSpec simpleTable).nRows
      ≤ (applyGlobalMigration simpleSpec.migration simpleTable).nRows :=
  C8_row_count_never_grows.1 simpleSpec simpleTable (by decide)

theorem crs_area_id_migrate_spec (reproj : Int → Value → Value)
    (area_of : Value → Value) (epsg : Int) {t : Table} (hw : t.wellFormed)
    (hg : "geometry" ∈ t.colNames) :
    (crs_area_id_migrate reproj area_of epsg t).nRows = t.nRows
    ∧ (crs_area_id_migrate reproj area_of epsg t).getCol "id"
        = some (rangeIds t.nRows) := by
  obtain ⟨gvs, hgvs⟩ := getCol_isSome_of_mem hg
  have h1n := nRows_to_crs hw reproj epsg
  have h1w := wellFormed_to_crs hw reproj epsg
  have h1g := getCol_to_crs_geom hgvs reproj epsg
  have hlenA : (((to_crs reproj epsg t).getColD "geometry").map
      (fun g => scaleVal (1 / 10000) (area_of g))).length
      = (to_crs reproj epsg t).nRows := by
    rw [List.length_map, Table.getColD, h1g, Option.getD_some]
    exact length_of_getCol h1w h1g
  have h2n := nRows_setCol hlenA "area"
  have h2w := wellFormed_setCol h1w hlenA "area"
  have h3w := wellFormed_setCol h2w (rangeIds_length _) "id"
  constructor
  · show (to_crs reproj 4326
        (((to_crs reproj epsg t).setCol "area"
            (((to_crs reproj epsg t).getColD "geometry").map
              (fun g => scaleVal (1 / 10000) (area_of g)))).setCol "id"
          (rangeIds ((to_crs reproj epsg t).setCol "area"
            (((to_crs reproj epsg t).getColD "geometry").map
              (fun g => scaleVal (1 / 10000) (area_of g)))).nRows))).nRows
      = t.nRows
    rw [nRows_to_crs h3w reproj 4326, nRows_setCol (rangeIds_length _) "id",
      h2n, h1n]
  · show (to_crs reproj 4326
        (((to_crs reproj epsg t).setCol "area"
            (((to_crs reproj epsg t).getColD "geometry").map
              (fun g => scaleVal (1 / 10000) (area_of g)))).setCol "id"
          (rangeIds ((to_crs reproj epsg t).setCol "area"
            (((to_crs reproj epsg t).getColD "geometry").map
              (fun g => scaleVal (1 / 10000) (area_of g)))).nRows))).getCol "id"
      = some (rangeIds t.nRows)
    rw [getCol_to_crs_ne _ (by decide) reproj 4326, getCol_setCol_self,
      h2n, h1n]

/-- Claim C10: each of the three repository global migrations that
reassign the id column — Finland, Vietnam (reproject, recompute area,
assign ids) and Romania (assign ids only) — preserves the row count and
leaves the id column equal to exactly the sequence 1, 2, ..., n of integer
values, which is strictly increasing and duplicate-free regardless of the
ids present in the source data. -/
theorem C10_migrate_ids :
    ∀ (reproj : Int → Value → Value) (area_of : Value → Value) (t : Table),
      t.wellFormed → "geometry" ∈ t.colNames →
      ((finland_migrate reproj area_of t).nRows = t.nRows
        ∧ (finland_migrate reproj area_of t).getCol "id"
            = some (rangeIds t.nRows))
      ∧ ((vietnam_migrate reproj area_of t).nRows = t.nRows
        ∧ (vietnam_migrate reproj area_of t).getCol "id"
            = some (rangeIds t.nRows))
      ∧ ((romania_migrate t).nRows = t.nRows
        ∧ (romania_migrate t).getCol "id" = some (rangeIds t.nRows))
      ∧ (rangeIds t.nRows).Pairwise (fun a b => valueInt a < valueInt b)
      ∧ (rangeIds t.nRows).Nodup := by
  intro reproj area_of t hw hg
  have hfin : finland_migrate reproj area_of t
      = crs_area_id_migrate reproj area_of 3067 t := rfl
  have hvie : vietnam_migrate reproj area_of t
      = crs_area_id_migrate reproj area_of 32648 t := rfl
  have s1 := crs_area_id_migrate_spec reproj area_of 3067 hw hg
  have s2 := crs_area_id_migrate_spec reproj area_of 32648 hw hg
  refine ⟨⟨by rw [hfin]; exact s1.1, by rw [hfin]; exact s1.2⟩,
    ⟨by rw [hvie]; exact s2.1, by rw [hvie]; exact s2.2⟩,
    ⟨nRows_setCol (rangeIds_length _) "id", getCol_setCol_self t "id" _⟩,
    rangeIds_pairwise_lt t.nRows, rangeIds_nodup t.nRows⟩

/-- Claim C10, witness: on a concrete two-row table with duplicated source
ids, all three migrations preserve the row count and set the id column to
the strictly increasing, duplicate-free sequence 1, 2. -/
theorem C10_migrate_ids_witness :
    ((finland_migrate (fun _ v => v) (fun _ => Value.num 1) geoTable).nRows
        = geoTable.nRows
      ∧ (finland_migrate (fun _ v => v) (fun _ => Value.num 1)
          geoTable).getCol "id" = some (rangeIds geoTable.nRows))
    ∧ ((vietnam_migrate (fun _ v => v) (fun _ => Value.num 1) geoTable).nRows
        = geoTable.nRows
      ∧ (vietnam_migrate (fun _ v => v) (fun _ => Value.num 1)
          geoTable).getCol "id" = some (rangeIds geoTable.nRows))
    ∧ ((romania_migrate geoTable).nRows = geoTable.nRows
      ∧ (romania_migrate geoTable).getCol "id"
          = some (rangeIds geoTable.nRows))
    ∧ (rangeIds geoTable.nRows).Pairwise (fun a b => valueInt a < valueInt b)
    ∧ (rangeIds geoTable.nRows).Nodup :=
  C10_migrate_ids (fun _ v => v) (fun _ => Value.num 1) geoTable
    (by decide) (by decide)

end Fiboa
